import Mathlib

/-!
Verification of the sample-attribution / prefetch-hint conversion pipeline
(`profile_creator.cc`) and the weighted CFG depth-first traversal
(`create_reg_prof.cc`) of the autofdo repository.

The shallow embedding translates the two source files.  External collaborators
whose implementation is not part of the repository snapshot (the `SymbolMap`,
the `Addr2line` resolver, the sample readers and `Profile::ComputeProfile`)
are modelled from the specification's contracts, as marked in their doc
comments.  Machine integers are `Nat`/`Int` with explicit `% 2 ^ 64` (for the
`static_cast<uint64_t>` of the signed delta) and `% 256` (for the `uint8_t`
per-address prefetch counter).
-/

namespace AutoFDO

/-- `SourceLocation` from the data model: `(file_or_function_id, line,
discriminator)`. -/
structure SourceLoc where
  id : String
  line : Nat
  discriminator : Nat
deriving DecidableEq

/-- One frame of an inline stack: the owning function and its source
location. -/
structure InlineFrame where
  func : String
  loc : SourceLoc
deriving DecidableEq

/-- `struct PrefetchHint` of `profile_creator.cc`: a PC (parsed from hex), a
signed delta (base 10) and a hint type token. -/
structure PrefetchHint where
  address : Nat
  delta : Int
  type : String
deriving DecidableEq

/-- A function symbol known to the symbol map: name and `[start, start+size)`
address range. -/
structure FuncSym where
  name : String
  start : Nat
  size : Nat
deriving DecidableEq

/-- Modelled from the spec: the Address Resolver contract
`inline_stack(address) -> InlineStack` (possibly empty); `addr2line.h` is not
part of the snapshot.  The stack is outermost frame first, innermost (leaf)
frame last. -/
structure Addr2line where
  inlineStack : Nat → List InlineFrame

/-- Modelled from the spec: the Symbol/Profile Map (`symbol_map.h` is not part
of the snapshot).  `symbols` is the address-range index, `ensured` the
attribution records inserted by `ensure_entry`, `totals` / `posCounts` the
per-function and per-location accumulated counts, and `callTargets` the
indirect-call-target accumulator keyed by function name, leaf call-site
location and target name. -/
structure SymbolMap where
  symbols : List FuncSym
  ensured : List (String × Nat)
  totals : List (String × Nat)
  posCounts : List ((String × SourceLoc) × Nat)
  callTargets : List ((String × SourceLoc × String) × Nat)
deriving DecidableEq

/-- Accumulating association-list update: repeated additions at one key sum
(used for counts, matching "repeated calls with the same target add, not
overwrite"). -/
def accAdd {α : Type} [DecidableEq α] : List (α × Nat) → α → Nat → List (α × Nat)
  | [], k, c => [(k, c)]
  | p :: t, k, c => if p.1 = k then (k, p.2 + c) :: t else p :: accAdd t k c

/-- Containment lookup of an address in a list of known functions'
`[start, start+size)` ranges, returning the owning function's name. -/
def resolveName (syms : List FuncSym) (pc : Nat) : Option String :=
  (syms.find? (fun s => decide (s.start ≤ pc ∧ pc < s.start + s.size))).map
    (fun s => s.name)

/-- Modelled from the spec: `SymbolMap::GetSymbolInfoByAddr` — containment
lookup restricted to the functions known to the map. -/
def getSymbolInfoByAddr (m : SymbolMap) (pc : Nat) : Option String :=
  resolveName m.symbols pc

/-- Modelled from the spec: `SymbolMap::EnsureEntryInFuncForSymbol` /
`ensure_entry` — idempotent; inserts an attribution record for the address
within the function if absent.  It never fails for a function name that
previously resolved successfully, so the boolean result is always true on the
converter's path and is omitted. -/
def ensureEntry (m : SymbolMap) (name : String) (pc : Nat) : SymbolMap :=
  if (name, pc) ∈ m.ensured then m
  else { m with ensured := m.ensured ++ [(name, pc)] }

/-- Modelled from the spec: `SymbolMap::AddIndirectCallTarget` — fails (with
no effect) when the call-site stack is empty, otherwise accumulates `count`
into the named target's total at the leaf call-site location of the stack. -/
def addIndirectCallTarget (m : SymbolMap) (fname : String)
    (stack : List InlineFrame) (target : String) (count : Nat) :
    Bool × SymbolMap :=
  match stack.getLast? with
  | none => (false, m)
  | some leaf =>
      (true,
       { m with callTargets := accAdd m.callTargets (fname, leaf.loc, target) count })

/-- Canonical function name used by suffix elision: the part of the name
before the first compiler-generated `.suffix`. -/
def canonicalName (s : String) : String :=
  match s.splitOn "." with
  | [] => s
  | c :: _ => c

/-- Re-key an accumulator association list through `f`, summing counts that
land on the same canonical key. -/
def remergeBy {α : Type} [DecidableEq α] (f : α → α) (l : List (α × Nat)) :
    List (α × Nat) :=
  l.foldl (fun acc p => accAdd acc (f p.1) p.2) []

/-- Modelled from the spec: `SymbolMap::ElideSuffixesAndMerge` — groups
function names into canonical equivalence classes (dropping compiler-generated
suffixes) and merges every profile in a class by summing counts at matching
keys. -/
def elideSuffixesAndMerge (m : SymbolMap) : SymbolMap :=
  { m with
    ensured := (m.ensured.map (fun p => (canonicalName p.1, p.2))).dedup
    totals := remergeBy canonicalName m.totals
    posCounts := remergeBy (fun k => (canonicalName k.1, k.2)) m.posCounts
    callTargets :=
      remergeBy (fun k => (canonicalName k.1, k.2.1, k.2.2)) m.callTargets }

/- ## The prefetch-hint input format (`ReadPrefetchHints`) -/

/-- Split a line at every comma, `fscanf`-style field separation for the
`"%x,%d,%s"` hint format. -/
def splitFields : List Char → List (List Char)
  | [] => [[]]
  | c :: cs =>
      let r := splitFields cs
      if c = ',' then [] :: r
      else
        match r with
        | [] => [[c]]
        | f :: fs => (c :: f) :: fs

/-- Value of one hexadecimal digit, or `none`. -/
def hexDigit (c : Char) : Option Nat :=
  if '0' ≤ c ∧ c ≤ '9' then some (c.toNat - '0'.toNat)
  else if 'a' ≤ c ∧ c ≤ 'f' then some (c.toNat - 'a'.toNat + 10)
  else if 'A' ≤ c ∧ c ≤ 'F' then some (c.toNat - 'A'.toNat + 10)
  else none

/-- Value of one decimal digit, or `none`. -/
def decDigit (c : Char) : Option Nat :=
  if '0' ≤ c ∧ c ≤ '9' then some (c.toNat - '0'.toNat) else none

/-- Accumulate digits of the given base. -/
def digitsCore (dig : Char → Option Nat) (base : Nat) :
    List Char → Nat → Option Nat
  | [], acc => some acc
  | c :: cs, acc =>
      match dig c with
      | none => none
      | some d => digitsCore dig base cs (acc * base + d)

/-- `%x` field: hexadecimal, optional `0x`/`0X`, at least one digit. -/
def parseHexField (cs : List Char) : Option Nat :=
  let body :=
    match cs with
    | '0' :: 'x' :: rest => rest
    | '0' :: 'X' :: rest => rest
    | other => other
  match body with
  | [] => none
  | _ => digitsCore hexDigit 16 body 0

/-- `%d` field: signed decimal, optional sign, at least one digit. -/
def parseIntField (cs : List Char) : Option Int :=
  match cs with
  | '-' :: rest =>
      match rest with
      | [] => none
      | _ => (digitsCore decDigit 10 rest 0).map (fun n => -(n : Int))
  | '+' :: rest =>
      match rest with
      | [] => none
      | _ => (digitsCore decDigit 10 rest 0).map (fun n => (n : Int))
  | other =>
      match other with
      | [] => none
      | _ => (digitsCore decDigit 10 other 0).map (fun n => (n : Int))

/-- Parse one hint line `"<address-hex>,<delta-signed-decimal>,<type-token>"`
into the three fields, or fail.  The type token is not validated beyond being
nonempty (`fscanf` `%s` never matches an empty token); the source likewise
does not validate it. -/
def parseHintLine (l : String) : Option PrefetchHint :=
  match splitFields l.toList with
  | [a, d, t] =>
      match parseHexField a, parseIntField d with
      | some addr, some delta =>
          if t = [] then none else some ⟨addr, delta, String.mk t⟩
      | _, _ => none
  | _ => none

/-- Diagnostics emitted by the pipeline (the `LOG(...)` calls), so that
"dropped, logged, non-fatal" conditions are observable in the model. -/
inductive LogEvent where
  | cannotOpenHintFile
  | malformedHintLine
  | unresolvedAddress (pc : Nat)
  | couldNotAddTarget (pc : Nat)
deriving DecidableEq

/-- The line-reading loop of `ReadPrefetchHints`: hints accumulate until the
first line that fails to parse; at that point the loop `break`s, keeping the
hints read so far and reporting that an error was logged. -/
def collectHints : List String → List PrefetchHint × Bool
  | [] => ([], false)
  | l :: ls =>
      match parseHintLine l with
      | none => ([], true)
      | some h =>
          let r := collectHints ls
          (h :: r.1, r.2)

/-- `ReadPrefetchHints` of `profile_creator.cc`.  The file is `none` when it
cannot be opened (`fopen` returns null): an error is logged and the empty hint
list is returned.  Otherwise lines are parsed until the first malformed one. -/
def ReadPrefetchHints (file : Option (List String)) :
    List PrefetchHint × List LogEvent :=
  match file with
  | none => ([], [LogEvent.cannotOpenHintFile])
  | some lines =>
      let r := collectHints lines
      (r.1, if r.2 then [LogEvent.malformedHintLine] else [])

/- ## The converter (`ProfileCreator::ConvertPrefetchHints`) -/

/-- Read a per-address counter (C++ `std::map<uint64_t, uint8_t>` with
`operator[]` default-inserting 0). -/
def lookupIdx : List (Nat × Nat) → Nat → Nat
  | [], _ => 0
  | p :: t, pc => if p.1 = pc then p.2 else lookupIdx t pc

/-- Store a per-address counter value. -/
def storeIdx : List (Nat × Nat) → Nat → Nat → List (Nat × Nat)
  | [], pc, v => [(pc, v)]
  | p :: t, pc, v => if p.1 = pc then (pc, v) :: t else p :: storeIdx t pc v

/-- `static_cast<uint64_t>` of the signed 64-bit delta: the bit pattern kept
as an unsigned value, i.e. the representative of `delta` modulo `2 ^ 64`. -/
def u64OfInt (i : Int) : Nat := (i % (2 ^ 64 : Int)).toNat

/-- The synthetic indirect-call-target name
`"__prefetch_" + type + "_" + std::to_string(index)`. -/
def targetName (ty : String) (idx : Nat) : String :=
  "__prefetch_" ++ ty ++ "_" ++ Nat.repr idx

/-- State threaded through the conversion loop: the symbol map, the local
`repeated_prefetches_indices` counter map, the list of successfully recorded
`(pc, target name, count)` indirect-call-target additions, and the log. -/
structure ConvertState where
  map : SymbolMap
  indices : List (Nat × Nat)
  added : List (Nat × String × Nat)
  log : List LogEvent
deriving DecidableEq

/-- One iteration of the loop body of `ConvertPrefetchHints`: resolve the
address (skip with a log entry on failure), post-increment the per-address
`uint8_t` counter, fetch the inline stack, ensure the attribution entry, then
try to add the synthetic indirect call target (a failure — empty inline
stack — is logged and skipped). -/
def processHint (a : Addr2line) (st : ConvertState) (h : PrefetchHint) :
    ConvertState :=
  match getSymbolInfoByAddr st.map h.address with
  | none =>
      { st with log := st.log ++ [LogEvent.unresolvedAddress h.address] }
  | some name =>
      let idx := lookupIdx st.indices h.address
      let indices := storeIdx st.indices h.address ((idx + 1) % 256)
      let stack := a.inlineStack h.address
      let m := ensureEntry st.map name h.address
      let tgt := targetName h.type idx
      match addIndirectCallTarget m name stack tgt (u64OfInt h.delta) with
      | (false, m2) =>
          { st with map := m2, indices := indices,
                    log := st.log ++ [LogEvent.couldNotAddTarget h.address] }
      | (true, m2) =>
          { st with map := m2, indices := indices,
                    added := st.added ++ [(h.address, tgt, u64OfInt h.delta)] }

/-- Initial conversion state over a symbol map, with the log produced while
reading the hint file. -/
def initState (m : SymbolMap) (log : List LogEvent) : ConvertState :=
  { map := m, indices := [], added := [], log := log }

/-- The hint-processing loop of `ConvertPrefetchHints`. -/
def convertHintList (a : Addr2line) (m : SymbolMap) (log : List LogEvent)
    (hints : List PrefetchHint) : ConvertState :=
  hints.foldl (processHint a) (initState m log)

/-- `ProfileCreator::ConvertPrefetchHints`.  The resolver argument is the
result of `Addr2line::Create(binary_)`: `none` models a failed construction,
on which `CheckAndAssignAddr2Line` logs and the function returns `false`
(here `none`) before touching the map.  Otherwise the hint file is read, every
hint is processed, `ElideSuffixesAndMerge` is run once, and the function
returns `true` (here the final state). -/
def ConvertPrefetchHints (a : Option Addr2line) (file : Option (List String))
    (m : SymbolMap) : Option ConvertState :=
  match a with
  | none => none
  | some a2l =>
      let r := ReadPrefetchHints file
      let st := convertHintList a2l m r.2 r.1
      some { st with map := elideSuffixesAndMerge st.map }

/- ## Observation helpers for the converter's record stream -/

/-- The hints of a hint list that sit at address `pc` and resolve to an owning
function, in order: exactly those for which the converter's per-address
counter at `pc` is consulted and post-incremented. -/
def resolvedHintsAt (syms : List FuncSym) (pc : Nat)
    (hints : List PrefetchHint) : List PrefetchHint :=
  hints.filter
    (fun h => decide (h.address = pc ∧ (resolveName syms h.address).isSome = true))

/-- The `(target name, count)` records the converter is expected to produce at
address `pc` for the given resolved hints at `pc`, the first of which is the
`k`-th resolved hint ever seen at `pc`: the `uint8_t` counter truncates each
position to its value modulo 256, and hints whose inline stack is empty are
skipped without a record (their counter slot is still consumed). -/
def expectedAdds (a : Addr2line) (pc : Nat) :
    Nat → List PrefetchHint → List (String × Nat)
  | _, [] => []
  | k, h :: t =>
      (if (a.inlineStack pc).getLast?.isSome then
        [(targetName h.type (k % 256), u64OfInt h.delta)]
      else []) ++ expectedAdds a pc (k + 1) t

/-- The `(target name, count)` records of the converter's record stream that
were added at address `pc`, in order. -/
def addedAt (pc : Nat) (l : List (Nat × String × Nat)) : List (String × Nat) :=
  l.filterMap (fun r => if r.1 = pc then some (r.2.1, r.2.2) else none)

/- ## Sample reading (`ReadSample`, `TotalSamples`,
`GetTotalCountFromTextProfile`) and `ComputeProfile` -/

/-- Modelled from the spec: the Sample Source contract (`sample_reader.h` is
not part of the snapshot): per-address samples and the total count set by
`ReadAndSetTotalCount`. -/
structure SampleReader where
  samples : List (Nat × Nat)
  totalCount : Nat
deriving DecidableEq

/-- `ProfileCreator::ReadSample`: an unsupported profiler name fails; for
"perf" and "text" the reader is constructed and `ReadAndSetTotalCount` is
called, whose failure (the input profile file missing or unreadable, modelled
as `none`) fails the whole read. -/
def ReadSample (profiler : String) (file : Option SampleReader) :
    Option SampleReader :=
  if profiler = "perf" ∨ profiler = "text" then
    match file with
    | none => none
    | some r => some r
  else none

/-- `ProfileCreator::TotalSamples`: 0 when no sample reader was installed,
otherwise the reader's total sample count. -/
def TotalSamples (reader : Option SampleReader) : Nat :=
  match reader with
  | none => 0
  | some r => r.totalCount

/-- `ProfileCreator::GetTotalCountFromTextProfile`: read the profile as a text
profile; on failure return 0, otherwise the installed reader's total. -/
def GetTotalCountFromTextProfile (file : Option SampleReader) : Nat :=
  match ReadSample "text" file with
  | none => 0
  | some r => TotalSamples (some r)

/-- The location used when an address has no inlining context and the count is
attributed at the function's own location. -/
def funcOwnLoc (name : String) : SourceLoc := ⟨name, 0, 0⟩

/-- Modelled from the spec: the attribution step of `Profile::ComputeProfile`
(`profile.cc` is not part of the snapshot) for one sample.  On `NotFound` the
sample is dropped with a diagnostic and the map is unchanged; on an empty
inline stack the count is attributed at the function's own location; otherwise
the count goes to the leaf location and every enclosing frame's aggregate. -/
def attributeSample (a : Addr2line) (m : SymbolMap) (s : Nat × Nat) :
    SymbolMap × List LogEvent :=
  match getSymbolInfoByAddr m s.1 with
  | none => (m, [LogEvent.unresolvedAddress s.1])
  | some name =>
      let stack := a.inlineStack s.1
      match stack.getLast? with
      | none =>
          ({ m with
             posCounts := accAdd m.posCounts (name, funcOwnLoc name) s.2,
             totals := accAdd m.totals name s.2 }, [])
      | some leaf =>
          ({ m with
             posCounts := accAdd m.posCounts (name, leaf.loc) s.2,
             totals := stack.foldl (fun t f => accAdd t f.func s.2) m.totals },
           [])

/-- Modelled from the spec: `Profile::ComputeProfile` — attribute every
sample, accumulating diagnostics. -/
def profileCompute (a : Addr2line) (r : SampleReader) (m : SymbolMap) :
    SymbolMap × List LogEvent :=
  r.samples.foldl
    (fun acc s =>
      let st := attributeSample a acc.1 s
      (st.1, acc.2 ++ st.2))
    (m, [])

/-- `ProfileCreator::ComputeProfile`.  The resolver argument is the result of
`Addr2line::CreateWithSampledFunctions`: when its construction fails,
`CheckAndAssignAddr2Line` logs and the function returns `false` (here `none`)
before any attribution; otherwise the profile is computed over the reader's
samples. -/
def ComputeProfile (a : Option Addr2line) (r : SampleReader) (m : SymbolMap) :
    Option (SymbolMap × List LogEvent) :=
  match a with
  | none => none
  | some a2l => some (profileCompute a2l r m)

/- ## The depth-first CFG traversal (`DFS` of `create_reg_prof.cc`) -/

/-- `CFGEdge` restricted to what the traversal consumes: source, sink and
weight.  Nodes are the vertices `Fin n` of a finite graph. -/
structure CFGEdge (n : Nat) where
  src : Fin n
  sink : Fin n
  weight : Nat
deriving DecidableEq

/-- A per-function control-flow graph: every node's ordered `intra_outs` edge
list. -/
structure CFGraph (n : Nat) where
  outs : Fin n → List (CFGEdge n)

/-- A callback invocation of the traversal, in the order it fires: `on_node`
or `on_edge`. -/
inductive DfsEvent (n : Nat) where
  | node (v : Fin n)
  | edge (e : CFGEdge n)
deriving DecidableEq

/-- The `visited_nodes` set together with the trace of callback invocations
made so far. -/
structure DfsState (n : Nat) where
  visited : Finset (Fin n)
  trace : List (DfsEvent n)

/-- Work items of the traversal loop: visit a node, or report an edge and then
descend into its sink.  The recursive `DFS` of the source is rephrased as an
explicit work list with identical callback order. -/
abbrev WorkItem (n : Nat) : Type := Sum (Fin n) (CFGEdge n)

/-- Termination weight of one work item. -/
def itemWeight {n : Nat} : WorkItem n → Nat
  | Sum.inl _ => 1
  | Sum.inr _ => 2

/-- Termination weight of a work list. -/
def itemsWeight {n : Nat} (l : List (WorkItem n)) : Nat :=
  (l.map itemWeight).sum

/-- The traversal loop.  Popping a node that is already in `visited_nodes`
returns without effect; popping a new node marks it, fires `on_node` and
queues its `intra_outs` edges in order; popping an edge fires `on_edge` and
then descends into the edge's sink.  This is the direct iterative reading of
the recursive `DFS`. -/
def dfsLoop {n : Nat} (g : CFGraph n) :
    List (WorkItem n) → DfsState n → DfsState n
  | [], st => st
  | Sum.inl v :: rest, st =>
      if _hv : v ∈ st.visited then dfsLoop g rest st
      else
        dfsLoop g ((g.outs v).map (fun e => (Sum.inr e : WorkItem n)) ++ rest)
          { visited := insert v st.visited,
            trace := st.trace ++ [DfsEvent.node v] }
  | Sum.inr e :: rest, st =>
      dfsLoop g (Sum.inl e.sink :: rest)
        { st with trace := st.trace ++ [DfsEvent.edge e] }
termination_by items st => (n - st.visited.card, itemsWeight items)
decreasing_by
  · apply Prod.Lex.right
    simp [itemsWeight, itemWeight]
  · apply Prod.Lex.left
    have hle : st.visited.card ≤ n := by
      simpa using Finset.card_le_univ st.visited
    have hne : st.visited.card ≠ n := by
      intro hEq
      have huniv : st.visited = Finset.univ :=
        Finset.eq_univ_of_card _ (by simpa using hEq)
      exact _hv (huniv ▸ Finset.mem_univ v)
    have hcard : (insert v st.visited).card = st.visited.card + 1 :=
      Finset.card_insert_of_not_mem _hv
    omega
  · apply Prod.Lex.right
    simp [itemsWeight, itemWeight]

/-- `DFS(entry, on_node, on_edge)` started with an empty `visited_nodes` set:
the full trace of callback invocations. -/
def DFS {n : Nat} (g : CFGraph n) (entry : Fin n) : DfsState n :=
  dfsLoop g [Sum.inl entry] { visited := ∅, trace := [] }

/-- The nodes on which `on_node` fired, in order. -/
def nodeTrace {n : Nat} (tr : List (DfsEvent n)) : List (Fin n) :=
  tr.filterMap (fun ev =>
    match ev with
    | DfsEvent.node v => some v
    | DfsEvent.edge _ => none)

/- ## Concrete fixtures used by counterexamples and witnesses -/

/-- A binary with one function "f" covering `[0x1000, 0x1040)`. -/
def exMap : SymbolMap :=
  { symbols := [⟨"f", 4096, 64⟩], ensured := [], totals := [],
    posCounts := [], callTargets := [] }

/-- A source location inside "f". -/
def exLoc : SourceLoc := ⟨"f", 1, 0⟩

/-- A resolver giving every address the one-frame inline stack `[f at
exLoc]`. -/
def exA : Addr2line := ⟨fun _ => [⟨"f", exLoc⟩]⟩

/-- A resolver with no debug information: every inline stack is empty. -/
def exAEmpty : Addr2line := ⟨fun _ => []⟩

/-- The cycle-and-exit CFG of the spec's example: nodes `{A=0, B=1, C=2,
exit=3}`, edges `A→B, B→C, C→A, B→exit`. -/
def eAB : CFGEdge 4 := ⟨0, 1, 1⟩

/-- Edge `B→C` of the example CFG. -/
def eBC : CFGEdge 4 := ⟨1, 2, 1⟩

/-- Edge `C→A` (the back-edge) of the example CFG. -/
def eCA : CFGEdge 4 := ⟨2, 0, 1⟩

/-- Edge `B→exit` of the example CFG. -/
def eBexit : CFGEdge 4 := ⟨1, 3, 1⟩

/-- The example CFG itself. -/
def cycleCFG : CFGraph 4 :=
  ⟨fun v =>
    if v = 0 then [eAB]
    else if v = 1 then [eBC, eBexit]
    else if v = 2 then [eCA]
    else []⟩

/- ## Helper lemmas about the symbol map and the converter step -/

theorem ensureEntry_symbols (m : SymbolMap) (name : String) (pc : Nat) :
    (ensureEntry m name pc).symbols = m.symbols := by
  unfold ensureEntry; split <;> rfl

theorem ensureEntry_callTargets (m : SymbolMap) (name : String) (pc : Nat) :
    (ensureEntry m name pc).callTargets = m.callTargets := by
  unfold ensureEntry; split <;> rfl

theorem getLast?_none_nil {α : Type} {l : List α} (h : l.getLast? = none) :
    l = [] :=
  List.getLast?_eq_none_iff.mp h

theorem processHint_unres (a : Addr2line) (st : ConvertState) (h : PrefetchHint)
    (hres : getSymbolInfoByAddr st.map h.address = none) :
    processHint a st h =
      { st with log := st.log ++ [LogEvent.unresolvedAddress h.address] } := by
  simp only [processHint, hres]

theorem processHint_skip (a : Addr2line) (st : ConvertState) (h : PrefetchHint)
    (name : String)
    (hres : getSymbolInfoByAddr st.map h.address = some name)
    (hstack : a.inlineStack h.address = []) :
    processHint a st h =
      { st with
        map := ensureEntry st.map name h.address,
        indices := storeIdx st.indices h.address
          ((lookupIdx st.indices h.address + 1) % 256),
        log := st.log ++ [LogEvent.couldNotAddTarget h.address] } := by
  simp only [processHint, hres, hstack, addIndirectCallTarget, List.getLast?]

theorem processHint_add (a : Addr2line) (st : ConvertState) (h : PrefetchHint)
    (name : String) (leaf : InlineFrame)
    (hres : getSymbolInfoByAddr st.map h.address = some name)
    (hstack : (a.inlineStack h.address).getLast? = some leaf) :
    processHint a st h =
      { st with
        map := { ensureEntry st.map name h.address with
                 callTargets := accAdd (ensureEntry st.map name h.address).callTargets
                   (name, leaf.loc, targetName h.type (lookupIdx st.indices h.address))
                   (u64OfInt h.delta) },
        indices := storeIdx st.indices h.address
          ((lookupIdx st.indices h.address + 1) % 256),
        added := st.added ++ [(h.address,
          targetName h.type (lookupIdx st.indices h.address), u64OfInt h.delta)] } := by
  simp only [processHint, hres, addIndirectCallTarget, hstack]

theorem processHint_added (a : Addr2line) (st : ConvertState) (h : PrefetchHint) :
    (processHint a st h).added = st.added ∨
    (processHint a st h).added = st.added ++
      [(h.address, targetName h.type (lookupIdx st.indices h.address),
        u64OfInt h.delta)] := by
  rcases hres : getSymbolInfoByAddr st.map h.address with _ | name
  · rw [processHint_unres a st h hres]; exact Or.inl rfl
  · rcases hstack : (a.inlineStack h.address).getLast? with _ | leaf
    · rw [processHint_skip a st h name hres (getLast?_none_nil hstack)]
      exact Or.inl rfl
    · rw [processHint_add a st h name leaf hres hstack]; exact Or.inr rfl

theorem lookup_store_same (l : List (Nat × Nat)) (pc v : Nat) :
    lookupIdx (storeIdx l pc v) pc = v := by
  induction l with
  | nil => simp [storeIdx, lookupIdx]
  | cons p t ih =>
      by_cases hp : p.1 = pc
      · simp [storeIdx, hp, lookupIdx]
      · simp [storeIdx, hp, lookupIdx, ih]

theorem lookup_store_other (l : List (Nat × Nat)) (pc pc' v : Nat)
    (hne : pc ≠ pc') :
    lookupIdx (storeIdx l pc' v) pc = lookupIdx l pc := by
  induction l with
  | nil =>
      simp only [storeIdx, lookupIdx]
      rw [if_neg (fun hEq => hne hEq.symm)]
  | cons p t ih =>
      by_cases hp : p.1 = pc'
      · simp only [storeIdx, if_pos hp, lookupIdx, hp]
        rw [if_neg (fun hEq => hne hEq.symm), if_neg (fun hEq => hne hEq.symm)]
      · simp only [storeIdx, if_neg hp, lookupIdx]
        rw [ih]

theorem addedAt_append (pc : Nat) (l : List (Nat × String × Nat))
    (r : Nat × String × Nat) :
    addedAt pc (l ++ [r]) =
      addedAt pc l ++ (if r.1 = pc then [(r.2.1, r.2.2)] else []) := by
  by_cases hr : r.1 = pc <;> simp [addedAt, hr]

theorem collectHints_bad (good : List String) (bad : String) (rest : List String)
    (hgood : ∀ l ∈ good, (parseHintLine l).isSome = true)
    (hbad : parseHintLine bad = none) :
    collectHints (good ++ bad :: rest) = ((collectHints good).1, true) := by
  induction good with
  | nil => simp [collectHints, hbad]
  | cons l ls ih =>
      have hl : (parseHintLine l).isSome = true := hgood l (by simp)
      rcases hsome : parseHintLine l with _ | h
      · rw [hsome] at hl; cases hl
      · simp [collectHints, hsome, ih (fun x hx => hgood x (by simp [hx]))]

/-- The central simulation lemma for the converter's record stream: starting
from a state whose per-address counter at `pc` holds `k % 256`, the records
added at `pc` over any hint list are exactly `expectedAdds` over the resolved
hints at `pc`, numbering them from `k` and truncating each number modulo 256
(the `uint8_t` counter). -/
theorem convert_addedAt (a : Addr2line) (syms : List FuncSym) (pc : Nat) :
    ∀ (hints : List PrefetchHint) (st : ConvertState) (k : Nat),
      st.map.symbols = syms →
      lookupIdx st.indices pc = k % 256 →
      addedAt pc (hints.foldl (processHint a) st).added =
        addedAt pc st.added ++ expectedAdds a pc k (resolvedHintsAt syms pc hints) := by
  intro hints
  induction hints with
  | nil => intro st k hsy hk; simp [resolvedHintsAt, expectedAdds]
  | cons h t ih =>
      intro st k hsy hk
      have hres0 : getSymbolInfoByAddr st.map h.address = resolveName syms h.address := by
        rw [getSymbolInfoByAddr, hsy]
      rcases hname : resolveName syms h.address with _ | name
      · have hres : getSymbolInfoByAddr st.map h.address = none := by rw [hres0, hname]
        have hfilter : resolvedHintsAt syms pc (h :: t) = resolvedHintsAt syms pc t := by
          simp [resolvedHintsAt, List.filter_cons, hname]
        rw [List.foldl_cons, processHint_unres a st h hres, hfilter]
        exact ih _ k hsy hk
      · have hres : getSymbolInfoByAddr st.map h.address = some name := by
          rw [hres0, hname]
        by_cases haddr : h.address = pc
        · subst haddr
          have hfilter : resolvedHintsAt syms h.address (h :: t) =
              h :: resolvedHintsAt syms h.address t := by
            simp [resolvedHintsAt, List.filter_cons, hname]
          have hkincr : (k % 256 + 1) % 256 = (k + 1) % 256 := by omega
          rcases hstack : (a.inlineStack h.address).getLast? with _ | leaf
          · have hstacknil : a.inlineStack h.address = [] := getLast?_none_nil hstack
            rw [List.foldl_cons, processHint_skip a st h name hres hstacknil, hfilter]
            rw [ih _ (k + 1)
              (by simpa using (ensureEntry_symbols st.map name h.address).trans hsy)
              (by rw [lookup_store_same, hk, hkincr])]
            simp [expectedAdds, hstack]
          · rw [List.foldl_cons, processHint_add a st h name leaf hres hstack, hfilter]
            rw [ih _ (k + 1)
              (by simpa using (ensureEntry_symbols st.map name h.address).trans hsy)
              (by rw [lookup_store_same, hk, hkincr])]
            rw [addedAt_append]
            simp [expectedAdds, hstack, hk]
        · have hfilter : resolvedHintsAt syms pc (h :: t) = resolvedHintsAt syms pc t := by
            simp [resolvedHintsAt, List.filter_cons, haddr]
          have hlook : ∀ v, lookupIdx (storeIdx st.indices h.address v) pc =
              lookupIdx st.indices pc :=
            fun v => lookup_store_other _ _ _ _ (fun hEq => haddr hEq.symm)
          rcases hstack : (a.inlineStack h.address).getLast? with _ | leaf
          · have hstacknil : a.inlineStack h.address = [] := getLast?_none_nil hstack
            rw [List.foldl_cons, processHint_skip a st h name hres hstacknil, hfilter]
            exact ih _ k
              (by simpa using (ensureEntry_symbols st.map name h.address).trans hsy)
              (by rw [hlook]; exact hk)
          · rw [List.foldl_cons, processHint_add a st h name leaf hres hstack, hfilter]
            rw [ih _ k
              (by simpa using (ensureEntry_symbols st.map name h.address).trans hsy)
              (by rw [hlook]; exact hk)]
            rw [addedAt_append]
            simp [haddr]

theorem foldl_added_origin (a : Addr2line) :
    ∀ (hints : List PrefetchHint) (st : ConvertState) (r : Nat × String × Nat),
      r ∈ (hints.foldl (processHint a) st).added →
      r ∈ st.added ∨ ∃ h ∈ hints, r.1 = h.address ∧ r.2.2 = u64OfInt h.delta := by
  intro hints
  induction hints with
  | nil => intro st r hr; exact Or.inl hr
  | cons h t ih =>
      intro st r hr
      rw [List.foldl_cons] at hr
      rcases ih _ r hr with hin | ⟨h', hh', hprop⟩
      · rcases processHint_added a st h with heq | heq
        · rw [heq] at hin; exact Or.inl hin
        · rw [heq] at hin
          rcases List.mem_append.mp hin with h1 | h2
          · exact Or.inl h1
          · simp only [List.mem_singleton] at h2
            right
            exact ⟨h, by simp, by simp [h2]⟩
      · right; exact ⟨h', by simp [hh'], hprop⟩

/- ## Helper lemmas about the traversal loop -/

theorem dfsLoop_trace_mono {n : Nat} (g : CFGraph n) :
    ∀ (items : List (WorkItem n)) (st : DfsState n) (ev : DfsEvent n),
      ev ∈ st.trace → ev ∈ (dfsLoop g items st).trace := by
  intro items st
  induction items, st using dfsLoop.induct (g := g) with
  | case1 st => intro ev hev; simpa [dfsLoop] using hev
  | case2 v rest st hv ih =>
      intro ev hev
      rw [dfsLoop]
      simp only [dif_pos hv]
      exact ih ev hev
  | case3 v rest st hv ih =>
      intro ev hev
      rw [dfsLoop]
      simp only [dif_neg hv]
      exact ih ev (by simp [hev])
  | case4 e rest st ih =>
      intro ev hev
      rw [dfsLoop]
      exact ih ev (by simp [hev])

theorem dfsLoop_edge_item_reported {n : Nat} (g : CFGraph n) :
    ∀ (items : List (WorkItem n)) (st : DfsState n) (e : CFGEdge n),
      Sum.inr e ∈ items → DfsEvent.edge e ∈ (dfsLoop g items st).trace := by
  intro items st
  induction items, st using dfsLoop.induct (g := g) with
  | case1 st => intro e he; simp at he
  | case2 v rest st hv ih =>
      intro e he
      rw [dfsLoop]
      simp only [dif_pos hv]
      exact ih e (by simpa using he)
  | case3 v rest st hv ih =>
      intro e he
      rw [dfsLoop]
      simp only [dif_neg hv]
      refine ih e ?_
      exact List.mem_append_right _ (by simpa using he)
  | case4 e' rest st ih =>
      intro e he
      rw [dfsLoop]
      rcases List.mem_cons.mp he with h1 | h2
      · have he' : e = e' := by simpa using h1
        subst he'
        exact dfsLoop_trace_mono g _ _ _ (by simp)
      · exact ih e (List.mem_cons_of_mem _ h2)

theorem dfsLoop_node_edges_reported {n : Nat} (g : CFGraph n) :
    ∀ (items : List (WorkItem n)) (st : DfsState n) (v : Fin n),
      DfsEvent.node v ∈ (dfsLoop g items st).trace →
      DfsEvent.node v ∈ st.trace ∨
        ∀ e ∈ g.outs v, DfsEvent.edge e ∈ (dfsLoop g items st).trace := by
  intro items st
  induction items, st using dfsLoop.induct (g := g) with
  | case1 st => intro v hv; left; simpa [dfsLoop] using hv
  | case2 w rest st hv ih =>
      intro v hmem
      rw [dfsLoop] at hmem ⊢
      simp only [dif_pos hv] at hmem ⊢
      exact ih v hmem
  | case3 w rest st hv ih =>
      intro v hmem
      rw [dfsLoop] at hmem ⊢
      simp only [dif_neg hv] at hmem ⊢
      rcases ih v hmem with hl | hr
      · rcases List.mem_append.mp hl with h1 | h2
        · exact Or.inl h1
        · have hvw : v = w := by simpa using h2
          subst hvw
          right
          intro e he
          refine dfsLoop_edge_item_reported g _ _ e ?_
          exact List.mem_append_left _ (List.mem_map_of_mem _ he)
      · exact Or.inr hr
  | case4 e' rest st ih =>
      intro v hmem
      rw [dfsLoop] at hmem ⊢
      rcases ih v hmem with hl | hr
      · rcases List.mem_append.mp hl with h1 | h2
        · exact Or.inl h1
        · simp at h2
      · exact Or.inr hr

theorem nodeTrace_append_node {n : Nat} (tr : List (DfsEvent n)) (v : Fin n) :
    nodeTrace (tr ++ [DfsEvent.node v]) = nodeTrace tr ++ [v] := by
  simp [nodeTrace]

theorem nodeTrace_append_edge {n : Nat} (tr : List (DfsEvent n)) (e : CFGEdge n) :
    nodeTrace (tr ++ [DfsEvent.edge e]) = nodeTrace tr := by
  simp [nodeTrace]

theorem dfsLoop_nodeTrace_inv {n : Nat} (g : CFGraph n) :
    ∀ (items : List (WorkItem n)) (st : DfsState n),
      (nodeTrace st.trace).Nodup →
      (∀ v ∈ nodeTrace st.trace, v ∈ st.visited) →
      (nodeTrace (dfsLoop g items st).trace).Nodup ∧
      (∀ v ∈ nodeTrace (dfsLoop g items st).trace,
        v ∈ (dfsLoop g items st).visited) := by
  intro items st
  induction items, st using dfsLoop.induct (g := g) with
  | case1 st => intro h1 h2; rw [dfsLoop]; exact ⟨h1, h2⟩
  | case2 v rest st hv ih =>
      intro h1 h2
      rw [dfsLoop]
      simp only [dif_pos hv]
      exact ih h1 h2
  | case3 v rest st hv ih =>
      intro h1 h2
      rw [dfsLoop]
      simp only [dif_neg hv]
      refine ih ?_ ?_
      · simp only [nodeTrace_append_node]
        simp [List.nodup_append, h1]
        intro hmem
        exact hv (h2 v hmem)
      · intro w hw
        simp only [nodeTrace_append_node] at hw
        rcases List.mem_append.mp hw with h3 | h4
        · exact Finset.mem_insert_of_mem (h2 w h3)
        · simp at h4
          subst h4
          exact Finset.mem_insert_self _ _
  | case4 e rest st ih =>
      intro h1 h2
      rw [dfsLoop]
      refine ih ?_ ?_
      · simpa [nodeTrace_append_edge] using h1
      · intro w hw
        simp only [nodeTrace_append_edge] at hw
        exact h2 w hw

/- ## Claim theorems -/

set_option maxRecDepth 100000

/-- C1, counterexample: a hint file whose second line is malformed does not
abort the conversion — `ConvertPrefetchHints` returns success and the record
parsed from the first line is committed, refuting "the whole conversion fails
with a parse error, and no partial records are committed for any hint". -/
theorem c1_counterexample :
    (ConvertPrefetchHints (some exA) (some ["1000,8,NTA", "garbage"]) exMap).map
        (fun st => st.added) =
      some [(4096, "__prefetch_NTA_0", 8)] := by
  decide

/-- C1, amended: a line that fails to parse stops the reading loop — the
malformed line and every later line are discarded and a parse error is
logged — but the conversion itself does not fail: it returns success and the
hints parsed before the malformed line are processed and committed. -/
theorem c1_amended (good : List String) (bad : String) (rest : List String)
    (hgood : ∀ l ∈ good, (parseHintLine l).isSome = true)
    (hbad : parseHintLine bad = none) :
    (ReadPrefetchHints (some (good ++ bad :: rest))).1 =
      (ReadPrefetchHints (some good)).1 ∧
    LogEvent.malformedHintLine ∈ (ReadPrefetchHints (some (good ++ bad :: rest))).2 ∧
    ∀ (a : Addr2line) (m : SymbolMap),
      (ConvertPrefetchHints (some a) (some (good ++ bad :: rest)) m).isSome = true := by
  have hc := collectHints_bad good bad rest hgood hbad
  refine ⟨?_, ?_, ?_⟩
  · simp [ReadPrefetchHints, hc]
  · simp [ReadPrefetchHints, hc]
  · intro a m
    simp [ConvertPrefetchHints]

/-- C1, witness for the amended theorem at a concrete hint file: one good
line, a malformed line, one following line. -/
theorem c1_witness :
    (ReadPrefetchHints (some (["1000,8,NTA"] ++ "garbage" :: ["2000,4,T0"]))).1 =
      (ReadPrefetchHints (some ["1000,8,NTA"])).1 ∧
    LogEvent.malformedHintLine ∈
      (ReadPrefetchHints (some (["1000,8,NTA"] ++ "garbage" :: ["2000,4,T0"]))).2 ∧
    ∀ (a : Addr2line) (m : SymbolMap),
      (ConvertPrefetchHints (some a)
        (some (["1000,8,NTA"] ++ "garbage" :: ["2000,4,T0"])) m).isSome = true :=
  c1_amended ["1000,8,NTA"] "garbage" ["2000,4,T0"] (by decide) (by decide)

/-- C2, counterexample: prefetch-hint conversion on a hint file that cannot
be opened returns success (with no hints recorded), refuting "prefetch-hint
conversion on a nonexistent hint file does not return success". -/
theorem c2_counterexample :
    (ConvertPrefetchHints (some exA) none exMap).isSome = true ∧
    (ConvertPrefetchHints (some exA) none exMap).map (fun st => st.added) =
      some [] := by
  decide

/-- C2, amended: a missing input profile fails the run only on the
sample-reading path (`ReadSample` returns failure when `ReadAndSetTotalCount`
fails); the prefetch-hint converter instead logs the unopenable hint file and
returns success with an empty record stream. -/
theorem c2_amended :
    (∀ (profiler : String), ReadSample profiler none = none) ∧
    ∀ (a : Addr2line) (m : SymbolMap),
      (ConvertPrefetchHints (some a) none m).map (fun st => (st.added, st.log)) =
        some ([], [LogEvent.cannotOpenHintFile]) := by
  constructor
  · intro profiler
    unfold ReadSample
    split <;> rfl
  · intro a m
    rfl

/-- C3, counterexample: 257 identical hints at one PC produce 257 records but
only 256 distinct names — the `uint8_t` per-address counter wraps, so the
name `__prefetch_NTA_0` is produced twice, refuting "any number of repeated
hints at one PC get pairwise distinct synthetic names". -/
theorem c3_counterexample :
    (((convertHintList exA exMap []
        (List.replicate 257 ⟨4096, 8, "NTA"⟩)).added.map (fun r => r.2.1)).length =
      257) ∧
    ((convertHintList exA exMap []
        (List.replicate 257 ⟨4096, 8, "NTA"⟩)).added.map (fun r => r.2.1)).count
        "__prefetch_NTA_0" = 2 := by
  constructor
  · decide
  · decide

/-- C3, amended: each recorded hint gets the synthetic name
`__prefetch_<type>_<index>` where `index` is the per-address count of resolved
hints already seen at that address reduced modulo 256 (the counter is an
8-bit `uint8_t`), so repeated hints at one PC get pairwise distinct names only
while at most 256 resolved hints occur at that address; the two-hint example
`0x1000,8,NTA` then `0x1000,-4,T1` yields `__prefetch_NTA_0` with count 8 and
`__prefetch_T1_1` with count `2^64 - 4` as stated. -/
theorem c3_amended :
    (∀ (a : Addr2line) (m : SymbolMap) (log : List LogEvent)
      (hints : List PrefetchHint) (pc : Nat),
      addedAt pc (convertHintList a m log hints).added =
        expectedAdds a pc 0 (resolvedHintsAt m.symbols pc hints)) ∧
    (ConvertPrefetchHints (some exA) (some ["1000,8,NTA", "1000,-4,T1"]) exMap).map
        (fun st => st.added) =
      some [(4096, "__prefetch_NTA_0", 8),
            (4096, "__prefetch_T1_1", 18446744073709551612)] := by
  constructor
  · intro a m log hints pc
    have h := convert_addedAt a m.symbols pc hints (initState m log) 0 rfl
      (by simp [lookupIdx])
    simpa [convertHintList, initState, addedAt] using h
  · decide

/-- C4: every record in the converter's record stream carries as its count
the originating hint's signed delta reinterpreted modulo `2 ^ 64` — the bit
pattern of the `static_cast<uint64_t>`, with no sign correction. -/
theorem c4 (a : Addr2line) (m : SymbolMap) (log : List LogEvent)
    (hints : List PrefetchHint) (r : Nat × String × Nat)
    (hr : r ∈ (convertHintList a m log hints).added) :
    ∃ h ∈ hints, r.1 = h.address ∧ r.2.2 = (h.delta % (2 ^ 64 : Int)).toNat := by
  rcases foldl_added_origin a hints (initState m log) r hr with hin | ⟨h, hh, h1, h2⟩
  · simp [initState] at hin
  · exact ⟨h, hh, h1, by rw [h2]; rfl⟩

/-- C4, witness: a hint with delta `-4` is recorded with count
`2 ^ 64 - 4 = 18446744073709551612`. -/
theorem c4_witness :
    ∃ h ∈ [(⟨4096, -4, "T1"⟩ : PrefetchHint)],
      ((4096 : Nat), ("__prefetch_T1_0" : String),
        (18446744073709551612 : Nat)).1 = h.address ∧
      ((4096 : Nat), ("__prefetch_T1_0" : String),
        (18446744073709551612 : Nat)).2.2 = (h.delta % (2 ^ 64 : Int)).toNat :=
  c4 exA exMap [] [⟨4096, -4, "T1"⟩]
    (4096, "__prefetch_T1_0", 18446744073709551612) (by decide)

/-- C5: the depth-first traversal (a total function, so it terminates on
every graph, back-edges and diamonds included) fires the node callback at
most once per node; on the spec's cycle example `{A→B, B→C, C→A, B→exit}`
started at `A` each of `A, B, C, exit` is visited exactly once. -/
theorem c5 :
    (∀ (n : Nat) (g : CFGraph n) (entry : Fin n),
      (nodeTrace (DFS g entry).trace).Nodup) ∧
    nodeTrace (DFS cycleCFG 0).trace = [0, 1, 2, 3] := by
  constructor
  · intro n g entry
    exact (dfsLoop_nodeTrace_inv g [Sum.inl entry] { visited := ∅, trace := [] }
      (by simp [nodeTrace]) (by simp [nodeTrace])).1
  · simp +decide [DFS, dfsLoop, cycleCFG, eAB, eBC, eCA, eBexit, nodeTrace]

/-- C6: every out-edge of every node the traversal expanded is reported to
the edge callback — including edges whose sink was already visited — and the
concrete example's full callback trace shows discovery order: the back-edge
`C→A` is reported but `A` is not descended into a second time. -/
theorem c6 :
    (∀ (n : Nat) (g : CFGraph n) (entry v : Fin n),
      DfsEvent.node v ∈ (DFS g entry).trace →
      ∀ e ∈ g.outs v, DfsEvent.edge e ∈ (DFS g entry).trace) ∧
    (DFS cycleCFG 0).trace =
      [DfsEvent.node 0, DfsEvent.edge eAB, DfsEvent.node 1, DfsEvent.edge eBC,
       DfsEvent.node 2, DfsEvent.edge eCA, DfsEvent.edge eBexit,
       DfsEvent.node 3] := by
  constructor
  · intro n g entry v hmem e he
    rcases dfsLoop_node_edges_reported g [Sum.inl entry]
        { visited := ∅, trace := [] } v hmem with h1 | h2
    · simp at h1
    · exact h2 e he
  · simp +decide [DFS, dfsLoop, cycleCFG, eAB, eBC, eCA, eBexit]

/-- C6, witness: in the example traversal, node `C` was expanded, and its
out-edge `C→A` — whose sink `A` is already visited — is reported to the edge
callback. -/
theorem c6_witness : DfsEvent.edge eCA ∈ (DFS cycleCFG 0).trace :=
  c6.1 4 cycleCFG 0 2
    (by simp +decide [DFS, dfsLoop, cycleCFG, eAB, eBC, eCA, eBexit])
    eCA (by decide)

/-- C7, counterexample: a hint whose address resolves but whose inline stack
is empty is skipped (no record, a diagnostic is logged) — yet the function's
profile data is not left unchanged: `ensure_entry` has already inserted an
attribution record for the address before the skip. -/
theorem c7_counterexample :
    (processHint exAEmpty (initState exMap []) ⟨4096, 8, "NTA"⟩).map ≠ exMap ∧
    (processHint exAEmpty (initState exMap []) ⟨4096, 8, "NTA"⟩).added = [] ∧
    (processHint exAEmpty (initState exMap []) ⟨4096, 8, "NTA"⟩).log =
      [LogEvent.couldNotAddTarget 4096] := by
  refine ⟨?_, by decide, by decide⟩
  decide

/-- C7, amended: a resolved hint with an empty inline stack is skipped with a
diagnostic and the conversion continues — it contributes no indirect-call
target and leaves the accumulated call-target data unchanged — but the map is
not wholly unchanged: the `ensure_entry` call made before the failed
`add_indirect_call_target` has already inserted the attribution entry for the
address. -/
theorem c7_amended (a : Addr2line) (st : ConvertState) (h : PrefetchHint)
    (name : String)
    (hres : getSymbolInfoByAddr st.map h.address = some name)
    (hstack : a.inlineStack h.address = []) :
    (processHint a st h).added = st.added ∧
    (processHint a st h).map.callTargets = st.map.callTargets ∧
    (processHint a st h).map = ensureEntry st.map name h.address ∧
    (processHint a st h).log = st.log ++ [LogEvent.couldNotAddTarget h.address] := by
  rw [processHint_skip a st h name hres hstack]
  exact ⟨rfl, ensureEntry_callTargets st.map name h.address, rfl, rfl⟩

/-- C7, witness for the amended theorem at a concrete hint whose address
resolves to "f" but whose inline stack is empty. -/
theorem c7_witness :
    (processHint exAEmpty (initState exMap []) ⟨4096, 8, "NTA"⟩).added = [] ∧
    (processHint exAEmpty (initState exMap []) ⟨4096, 8, "NTA"⟩).map.callTargets = [] ∧
    (processHint exAEmpty (initState exMap []) ⟨4096, 8, "NTA"⟩).map =
      ensureEntry exMap "f" 4096 ∧
    (processHint exAEmpty (initState exMap []) ⟨4096, 8, "NTA"⟩).log =
      [LogEvent.couldNotAddTarget 4096] :=
  c7_amended exAEmpty (initState exMap []) ⟨4096, 8, "NTA"⟩ "f" (by decide) rfl

/-- C8: an address outside every known function's `[start, start+size)` range
is dropped from attribution with a diagnostic and nothing else changes — in
the prefetch-hint path the conversion state is unchanged apart from the log
entry, and in the sample path the symbol map is returned unchanged alongside
the diagnostic. -/
theorem c8 :
    (∀ (a : Addr2line) (st : ConvertState) (h : PrefetchHint),
      getSymbolInfoByAddr st.map h.address = none →
      processHint a st h =
        { st with log := st.log ++ [LogEvent.unresolvedAddress h.address] }) ∧
    (∀ (a : Addr2line) (m : SymbolMap) (addr cnt : Nat),
      getSymbolInfoByAddr m addr = none →
      attributeSample a m (addr, cnt) = (m, [LogEvent.unresolvedAddress addr])) := by
  constructor
  · exact fun a st h hres => processHint_unres a st h hres
  · intro a m addr cnt hres
    simp [attributeSample, hres]

/-- C8, witness: address `99` lies outside the only function's range
`[4096, 4160)`; the hint step only logs, and sample attribution returns the
map unchanged. -/
theorem c8_witness :
    processHint exA (initState exMap []) ⟨99, 8, "NTA"⟩ =
      { initState exMap [] with log := [LogEvent.unresolvedAddress 99] } ∧
    attributeSample exA exMap (99, 5) = (exMap, [LogEvent.unresolvedAddress 99]) :=
  ⟨c8.1 exA (initState exMap []) ⟨99, 8, "NTA"⟩ (by decide),
   c8.2 exA exMap 99 5 (by decide)⟩

/-- C9: when the Address Resolver cannot be constructed for the binary, both
profile-creation paths fail before any attribution: prefetch-hint conversion
and profile computation return failure and produce no map. -/
theorem c9 :
    (∀ (file : Option (List String)) (m : SymbolMap),
      ConvertPrefetchHints none file m = none) ∧
    (∀ (r : SampleReader) (m : SymbolMap), ComputeProfile none r m = none) :=
  ⟨fun _ _ => rfl, fun _ _ => rfl⟩

/-- C10: querying the total sample count never fails:
`GetTotalCountFromTextProfile` returns 0 when the text profile cannot be
read, `TotalSamples` returns 0 when no sample reader is installed, and in
general the text-profile total is the installed reader's total. -/
theorem c10 :
    GetTotalCountFromTextProfile none = 0 ∧
    TotalSamples none = 0 ∧
    ∀ (file : Option SampleReader),
      GetTotalCountFromTextProfile file = TotalSamples (ReadSample "text" file) := by
  refine ⟨rfl, rfl, ?_⟩
  intro file
  rcases hfile : ReadSample "text" file with _ | r <;>
    simp [GetTotalCountFromTextProfile, TotalSamples, hfile]

end AutoFDO
